import Mathlib

/-!
# NGROK-AI-MARX: the WhatsApp bot server (`src/server.js`) and dashboard (`src/script.js`)

A shallow embedding of the event handlers registered by `initializeClient`, of
`handleCommand`, of the `POST /api/send-message` route and of the dashboard's
`sendMessage`, followed by the properties of the specification that concern them.

Modelling conventions.

* A JavaScript string is modelled as a `List Char` (`Str`): a sequence of Unicode scalar
  values.  For such strings `startsWith`, `slice(P.length)` after a successful
  `startsWith(P)`, `trim`, `split(' ')`, `join(' ')` and `replace` act on code points
  exactly as they act on UTF-16 code units.  Strings holding unpaired surrogates are not
  represented.
* `toLowerCase` folds `A`-`Z` on a string of ASCII characters, which is what
  `String.prototype.toLowerCase` does there; on a string that holds a non-ASCII character
  its result is that of the Unicode case tables of the runtime, which the repository does
  not hold and the model takes as a parameter (`Runtime.unicodeLower`).
* `qrcode.generate` of the `qrcode-terminal` library prints to the terminal or throws (on
  a string too long for a QR code); whether it returns is the parameter
  `Runtime.qrcodeGenerate`.
* `new Date().toISOString()` (the `timestamp` field of every payload) and the `console`
  output are left out: they read the clock or write to the terminal only.
* The effects of a handler are logged in a `World`: the readiness flag, the calls of
  `io.emit`, of `message.reply` and of `client.sendMessage`, each in call order.
* The collaborators (the WhatsApp transport) are inputs: a message carries the outcome of
  each of its `reply` calls and of `getContact`; the send route receives the outcome of
  `client.sendMessage`.
* A handler runs to completion before the next event is applied.  A rejected promise or a
  thrown exception ends the handler at that point with the effects made so far (`threw`).
-/

namespace WaBot

/-- A JavaScript string, as its list of code points. -/
abbrev Str := List Char

/-! ## String primitives of the JavaScript runtime -/

/-- The characters removed by `String.prototype.trim`: ECMAScript `WhiteSpace` and
`LineTerminator`. -/
def isWhiteSpace (c : Char) : Bool :=
  let n := c.toNat
  n == 0x09 || n == 0x0A || n == 0x0B || n == 0x0C || n == 0x0D || n == 0x20 ||
  n == 0xA0 || n == 0x1680 || (0x2000 ≤ n && n ≤ 0x200A) || n == 0x2028 || n == 0x2029 ||
  n == 0x202F || n == 0x205F || n == 0x3000 || n == 0xFEFF

/-- The method `String.prototype.trim`. -/
def trim (s : Str) : Str :=
  ((s.dropWhile isWhiteSpace).reverse.dropWhile isWhiteSpace).reverse

/-- The method `String.prototype.split` with a one-character separator: the pieces between
the occurrences of `sep`; the empty string gives one empty piece. -/
def split (sep : Char) : Str → List Str
  | [] => [[]]
  | c :: cs =>
    if c = sep then [] :: split sep cs
    else match split sep cs with
      | [] => [[c]]
      | seg :: segs => (c :: seg) :: segs

/-- The method `Array.prototype.join` with a one-character separator. -/
def join (sep : Char) : List Str → Str
  | [] => []
  | [s] => s
  | s :: t :: rest => s ++ sep :: join sep (t :: rest)

/-- The parts of the JavaScript runtime and of the `qrcode-terminal` library that the
handlers call and the repository does not hold. -/
structure Runtime where
  /-- The result of `String.prototype.toLowerCase` on a string that holds a non-ASCII
  character: the Unicode case tables of the runtime. -/
  unicodeLower : Str → Str
  /-- Whether `qrcode.generate(qr, { small: true })` returns; when false it throws. -/
  qrcodeGenerate : Str → Bool

/-- A runtime to evaluate the handlers with on concrete input: `toLowerCase` leaves a
string with a non-ASCII character as it is and `qrcode.generate` always returns.  On ASCII
messages the handlers do not consult it. -/
def Runtime.sample : Runtime :=
  { unicodeLower := fun s => s, qrcodeGenerate := fun _ => true }

/-- The method `String.prototype.toLowerCase`: on ASCII text it folds `A`-`Z`, and on a
string that holds another character it is given by the tables of the runtime. -/
def toLowerCase (rt : Runtime) (s : Str) : Str :=
  if s.all (fun c => c.toNat < 128) then s.map Char.toLower else rt.unicodeLower s

/-- The method `String.prototype.startsWith`. -/
def startsWith (s p : Str) : Bool := p.isPrefixOf s

/-- The method `String.prototype.replace` with a string pattern: the first occurrence of
`pat` is replaced by `rep`. -/
def replace (pat rep : Str) : Str → Str
  | [] => if pat = [] then rep else []
  | c :: cs =>
    if pat.isPrefixOf (c :: cs) then rep ++ (c :: cs).drop pat.length
    else c :: replace pat rep cs

/-! ## Data model -/

/-- The `type` field of a `new_message` payload. -/
inductive MessageType
  | incoming
  | outgoing
  deriving DecidableEq, Repr

/-- One call of `io.emit(name, payload)`, by event name. -/
inductive Emit
  | qr (qr : Str)
  | status (ready : Bool) (message : Str)
  | new_message (sender : Str) (message : Str) (type : MessageType) (id : Option Str)
  | message_ack (id : Str) (ack : Nat)
  | command_executed (command : Str) (phoneNumber : Str)
  deriving DecidableEq, Repr

/-- The module state of `server.js` together with the log of its effects. -/
structure World where
  /-- The variable `isClientReady`. -/
  isClientReady : Bool
  /-- The calls of `io.emit`, oldest first. -/
  emitted : List Emit
  /-- The texts passed to `message.reply`, oldest first. -/
  replyCalls : List Str
  /-- The `(chatId, content)` pairs passed to `client.sendMessage`, oldest first. -/
  sendCalls : List (Str × Str)
  deriving DecidableEq, Repr

/-- The state at module load: `let isClientReady = false`, nothing done yet. -/
def World.initial : World :=
  { isClientReady := false, emitted := [], replyCalls := [], sendCalls := [] }

/-- The result of `message.getContact()`. -/
structure Contact where
  /-- The field `pushname`; `none` when it is undefined. -/
  pushname : Option Str
  isBusiness : Bool
  deriving DecidableEq, Repr

/-- An inbound message of the transport. -/
structure Message where
  /-- The field `from`: the chat identifier of the sender. -/
  sender : Str
  body : Str
  /-- Whether the `n`-th call of `message.reply` on this message resolves (`n` from 0). -/
  replyOk : Nat → Bool
  /-- The result of `message.getContact()`; `none` when the promise rejects. -/
  contact : Option Contact

/-- Where a handler stands when it ends: the world it leaves and whether it ended by a
thrown exception or rejected promise. -/
structure Step where
  world : World
  threw : Bool
  deriving DecidableEq, Repr

/-- The call `io.emit(...)`. -/
def emit (w : World) (e : Emit) : World :=
  { w with emitted := w.emitted ++ [e] }

/-- The call `await message.reply(text)`, the `n`-th on this message. -/
def reply (w : World) (message : Message) (n : Nat) (text : Str) : Step :=
  { world := { w with replyCalls := w.replyCalls ++ [text] }, threw := !message.replyOk n }

/-! ## `handleCommand` -/

/-- The template `Command: ${command} executed!`. -/
def ackText (command : Str) : Str :=
  "Command: ".toList ++ command ++ " executed!".toList

def helpText : Str :=
  ("Available Commands:\n!help - Show this help\n!ping - Check bot status\n" ++
   "!info - Get contact info\n!echo [text] - Echo back your message").toList

def pongText : Str := "Pong! Bot is alive 🚀".toList

def echoPromptText : Str := "Please provide text to echo!".toList

/-- The template built in `case 'info'`; `contact.pushname || 'N/A'` takes `'N/A'` for an
undefined and for an empty name. -/
def infoText (contact : Contact) (phoneNumber : Str) : Str :=
  let name := match contact.pushname with
    | none => "N/A".toList
    | some n => if n = [] then "N/A".toList else n
  "Contact Info:\nName: ".toList ++ name ++ "\nNumber: ".toList ++ phoneNumber ++
    "\nStatus: ".toList ++ (if contact.isBusiness then "Business".toList else "Personal".toList)

/-- The template of the `default` case. -/
def unknownText (command : Str) : Str :=
  "Unknown command: ".toList ++ command ++ "\nType !help for available commands".toList

/-- The text replied in `case 'echo'`. -/
def echoText (args : List Str) : Str :=
  if args.length > 0 then join ' ' args else echoPromptText

/-- The `switch (command)` of `handleCommand`. -/
def commandSwitch (w : World) (message : Message) (command : Str) (args : List Str)
    (phoneNumber : Str) : Step :=
  if command = "help".toList then reply w message 1 helpText
  else if command = "ping".toList then reply w message 1 pongText
  else if command = "info".toList then
    match message.contact with
    | none => { world := w, threw := true }
    | some contact => reply w message 1 (infoText contact phoneNumber)
  else if command = "echo".toList then reply w message 1 (echoText args)
  else reply w message 1 (unknownText command)

/-- The function `handleCommand(message, command, args, phoneNumber)`. -/
def handleCommand (w : World) (message : Message) (command : Str) (args : List Str)
    (phoneNumber : Str) : Step :=
  let s₁ := reply w message 0 (ackText command)
  if s₁.threw then s₁
  else
    let s₂ := commandSwitch s₁.world message command args phoneNumber
    if s₂.threw then s₂
    else { world := emit s₂.world (.command_executed command phoneNumber), threw := false }

/-! ## The transport event handlers of `initializeClient` -/

/-- The expression `messageText.slice(P.length).trim().split(' ')[0].toLowerCase()`. -/
def commandOf (rt : Runtime) (P messageText : Str) : Str :=
  toLowerCase rt ((split ' ' (trim (messageText.drop P.length))).headD [])

/-- The expression `messageText.slice(P.length).trim().split(' ').slice(1)`. -/
def argsOf (P messageText : Str) : List Str :=
  (split ' ' (trim (messageText.drop P.length))).drop 1

/-- The handler `client.on('qr', ...)`: `qrcode.generate(qr, { small: true })` comes
first and, when it throws, ends the handler before `io.emit('qr', qr)`. -/
def onQr (rt : Runtime) (w : World) (qr : Str) : Step :=
  if rt.qrcodeGenerate qr then { world := emit w (.qr qr), threw := false }
  else { world := w, threw := true }

/-- The handler `client.on('ready', ...)`. -/
def onReady (w : World) : Step :=
  { world := emit { w with isClientReady := true } (.status true "WhatsApp connected!".toList),
    threw := false }

/-- The handler `client.on('message', ...)`; `P` is `process.env.BOT_PREFIX`. -/
def onMessage (rt : Runtime) (P : Str) (w : World) (message : Message) : Step :=
  let chatId := message.sender
  let messageText := message.body
  let phoneNumber := replace "@c.us".toList [] chatId
  let s :=
    if startsWith messageText P then
      handleCommand w message (commandOf rt P messageText) (argsOf P messageText) phoneNumber
    else { world := w, threw := false }
  if s.threw then s
  else { world := emit s.world (.new_message phoneNumber messageText .incoming none),
         threw := false }

/-- The handler `client.on('message_ack', ...)`; `id` is `msg.id.id`. -/
def onMessageAck (w : World) (id : Str) (ack : Nat) : Step :=
  { world := emit w (.message_ack id ack), threw := false }

/-- The handler `client.on('disconnected', ...)`. -/
def onDisconnected (w : World) (_reason : Str) : Step :=
  { world := emit { w with isClientReady := false }
      (.status false "WhatsApp disconnected".toList),
    threw := false }

/-- A lifecycle event of the transport, with its payload. -/
inductive TransportEvent
  | qr (qr : Str)
  | ready
  | disconnected (reason : Str)
  | message (m : Message)
  | message_ack (id : Str) (ack : Nat)

/-- Whether the event is one of the two status events, `ready` and `disconnected`. -/
def TransportEvent.isStatus : TransportEvent → Bool
  | .ready => true
  | .disconnected _ => true
  | _ => false

/-- Whether the event is `ready`. -/
def TransportEvent.isReady : TransportEvent → Bool
  | .ready => true
  | _ => false

/-- The handler registered for an event, run on the event. -/
def dispatchEvent (rt : Runtime) (P : Str) (w : World) : TransportEvent → Step
  | .qr q => onQr rt w q
  | .ready => onReady w
  | .disconnected r => onDisconnected w r
  | .message m => onMessage rt P w m
  | .message_ack id ack => onMessageAck w id ack

/-- The world after an event: the handler has run, to its end or to a fault. -/
def applyEvent (rt : Runtime) (P : Str) (w : World) (e : TransportEvent) : World :=
  (dispatchEvent rt P w e).world

/-- The world after a sequence of events, applied in order. -/
def applyEvents (rt : Runtime) (P : Str) (w : World) (es : List TransportEvent) : World :=
  es.foldl (applyEvent rt P) w

/-! ## The HTTP routes -/

/-- The JSON body of a response of the routes. -/
inductive ResponseBody
  | error (error : Str)
  | success (messageId : Str)
  | status (ready : Bool)
  deriving DecidableEq, Repr

/-- A response: `res.status(code).json(body)`; `res.json(body)` has status 200. -/
structure Response where
  status : Nat
  body : ResponseBody
  deriving DecidableEq, Repr

/-- The route `GET /api/status`. -/
def getStatus (w : World) : Response :=
  { status := 200, body := .status w.isClientReady }

/-- The route `POST /api/send-message` on the body `{ phoneNumber, message }`.
`sendMessage chatId content` is the outcome of `client.sendMessage(chatId, content)`:
`some id` when it resolves to a message whose `id.id` is `id`, `none` when it rejects. -/
def postSendMessage (sendMessage : Str → Str → Option Str) (w : World)
    (phoneNumber message : Str) : World × Response :=
  if !w.isClientReady then
    (w, { status := 400, body := .error "WhatsApp client not ready".toList })
  else
    let chatId := phoneNumber ++ "@c.us".toList
    let w₁ := { w with sendCalls := w.sendCalls ++ [(chatId, message)] }
    match sendMessage chatId message with
    | some id =>
      (emit w₁ (.new_message phoneNumber message .outgoing (some id)),
       { status := 200, body := .success id })
    | none => (w₁, { status := 500, body := .error "Failed to send message".toList })

/-! ## The dashboard (`script.js`) -/

/-- The body of the request the dashboard posts to `/api/send-message`. -/
structure MessageData where
  phoneNumber : Str
  message : Str
  deriving DecidableEq, Repr

/-- The expression `phoneNumber.startsWith('+') ? phoneNumber : '+' + phoneNumber` of
`WhatsAppBotDashboard.sendMessage`. -/
def formattedNumber (phoneNumber : Str) : Str :=
  if startsWith phoneNumber ['+'] then phoneNumber else '+' :: phoneNumber

/-- What `WhatsAppBotDashboard.sendMessage` does with the values of the two form fields:
a notification and no request, or the request it posts. -/
inductive DashboardAction
  | notifyError (text : Str)
  | post (data : MessageData)
  deriving DecidableEq, Repr

/-- The method `WhatsAppBotDashboard.sendMessage`, up to the `fetch` call. -/
def dashboardSendMessage (phoneField messageField : Str) : DashboardAction :=
  let phoneNumber := trim phoneField
  let messageText := trim messageField
  if phoneNumber = [] || messageText = [] then
    .notifyError "Please fill in all fields".toList
  else
    .post { phoneNumber := formattedNumber phoneNumber, message := messageText }

/-- A send made from the dashboard form, through to the server route. -/
def dashboardSend (sendMessage : Str → Str → Option Str) (w : World)
    (phoneField messageField : Str) : World × Option Response :=
  match dashboardSendMessage phoneField messageField with
  | .notifyError _ => (w, none)
  | .post data =>
    let r := postSendMessage sendMessage w data.phoneNumber data.message
    (r.1, some r.2)

/-! ## Transport payloads as they arrive -/

/-- A JavaScript value found where the handlers expect a string: `other` is a value that
is neither undefined nor a string and has none of the string methods (a number, a boolean,
`null`, a plain object). -/
inductive JsValue
  | undefined
  | string (s : Str)
  | other
  deriving DecidableEq, Repr

/-- The payload of the `message` event before the handler has looked at it: `from` and
`body` may be missing or hold a value that is not a string. -/
structure RawMessage where
  /-- The field `from`. -/
  sender : JsValue
  body : JsValue
  replyOk : Nat → Bool
  contact : Option Contact

/-- The handler `client.on('message', ...)` on any payload.  `chatId.replace(...)` throws a
`TypeError` when `message.from` is not a string, then `messageText.startsWith(...)` throws
one when `message.body` is not a string; both come before the first effect. -/
def onMessageRaw (rt : Runtime) (P : Str) (w : World) (message : RawMessage) : Step :=
  match message.sender with
  | .string chatId =>
    match message.body with
    | .string messageText =>
      onMessage rt P w
        { sender := chatId, body := messageText, replyOk := message.replyOk,
          contact := message.contact }
    | _ => { world := w, threw := true }
  | _ => { world := w, threw := true }

/-- The handler `client.on('message_ack', ...)` on any payload: `id` is `none` when
`msg.id` is undefined, and then `msg.id.id` throws a `TypeError` while the payload of
`io.emit` is built. -/
def onMessageAckRaw (w : World) (id : Option Str) (ack : Nat) : Step :=
  match id with
  | some id => onMessageAck w id ack
  | none => { world := w, threw := true }

/-- A transport event with its payload as it arrives. -/
inductive RawEvent
  | qr (qr : Str)
  | ready
  | disconnected (reason : Str)
  | message (m : RawMessage)
  | message_ack (id : Option Str) (ack : Nat)

/-- Whether the payload has a shape the handler does not expect: a message whose `from` or
`body` is not a string, an acknowledgement whose `msg` has no `id`. -/
def RawEvent.malformed : RawEvent → Bool
  | .message m =>
    match m.sender, m.body with
    | .string _, .string _ => false
    | _, _ => true
  | .message_ack none _ => true
  | _ => false

/-- The entry point registered for an event, run on the payload as it arrives. -/
def dispatchRaw (rt : Runtime) (P : Str) (w : World) : RawEvent → Step
  | .qr q => onQr rt w q
  | .ready => onReady w
  | .disconnected r => onDisconnected w r
  | .message m => onMessageRaw rt P w m
  | .message_ack id ack => onMessageAckRaw w id ack

/-! ## Tokens, in the words of the specification -/

/-- The pieces of a string between the characters that satisfy `p`. -/
def splitWhere (p : Char → Bool) : Str → List Str
  | [] => [[]]
  | c :: cs =>
    if p c then [] :: splitWhere p cs
    else match splitWhere p cs with
      | [] => [[c]]
      | seg :: segs => (c :: seg) :: segs

/-- The whitespace-delimited tokens of a string, in the words of the specification: the
maximal runs of characters that are not whitespace, in order. -/
def tokens (s : Str) : List Str :=
  (splitWhere isWhiteSpace s).filter (fun t => !t.isEmpty)

/-! ## Effects on the readiness flag -/

theorem reply_isClientReady (w : World) (message : Message) (n : Nat) (text : Str) :
    (reply w message n text).world.isClientReady = w.isClientReady := rfl

theorem commandSwitch_isClientReady (w : World) (message : Message) (command : Str)
    (args : List Str) (phoneNumber : Str) :
    (commandSwitch w message command args phoneNumber).world.isClientReady
      = w.isClientReady := by
  unfold commandSwitch
  split_ifs
  · rfl
  · rfl
  · cases message.contact <;> rfl
  · rfl
  · rfl

theorem handleCommand_isClientReady (w : World) (message : Message) (command : Str)
    (args : List Str) (phoneNumber : Str) :
    (handleCommand w message command args phoneNumber).world.isClientReady
      = w.isClientReady := by
  unfold handleCommand
  simp only
  split_ifs
  · rfl
  · rw [commandSwitch_isClientReady]; rfl
  · show (commandSwitch _ _ _ _ _).world.isClientReady = _
    rw [commandSwitch_isClientReady]; rfl

theorem onMessage_isClientReady (rt : Runtime) (P : Str) (w : World) (message : Message) :
    (onMessage rt P w message).world.isClientReady = w.isClientReady := by
  unfold onMessage
  by_cases hp : startsWith message.body P = true
  · simp only [hp, if_true]
    split_ifs
    · exact handleCommand_isClientReady _ _ _ _ _
    · show (handleCommand _ _ _ _ _).world.isClientReady = _
      exact handleCommand_isClientReady _ _ _ _ _
  · simp [hp, emit]

theorem onQr_isClientReady (rt : Runtime) (w : World) (qr : Str) :
    (onQr rt w qr).world.isClientReady = w.isClientReady := by
  unfold onQr
  split_ifs <;> rfl

/-- The flag after an event: set by the two status events, kept by every other one. -/
theorem applyEvent_isClientReady (rt : Runtime) (P : Str) (w : World) (e : TransportEvent) :
    (applyEvent rt P w e).isClientReady = if e.isStatus then e.isReady else w.isClientReady := by
  cases e with
  | qr q => exact onQr_isClientReady rt w q
  | ready => rfl
  | disconnected r => rfl
  | message m => exact onMessage_isClientReady rt P w m
  | message_ack id ack => rfl

theorem applyEvents_append (rt : Runtime) (P : Str) (w : World) (es fs : List TransportEvent) :
    applyEvents rt P w (es ++ fs) = applyEvents rt P (applyEvents rt P w es) fs := by
  simp [applyEvents, List.foldl_append]

/-- The flag after a sequence of events is decided by the latest status event. -/
theorem applyEvents_isClientReady (rt : Runtime) (P : Str) (w : World) (es : List TransportEvent) :
    (applyEvents rt P w es).isClientReady =
      match (es.filter TransportEvent.isStatus).getLast? with
      | some e => e.isReady
      | none => w.isClientReady := by
  induction es using List.reverseRecOn with
  | nil => rfl
  | append_singleton es e ih =>
    rw [applyEvents_append]
    show (applyEvent rt P (applyEvents rt P w es) e).isClientReady = _
    rw [applyEvent_isClientReady, List.filter_append]
    by_cases he : e.isStatus = true
    · simp [he, List.filter_cons]
    · simp only [he, List.filter_cons, List.filter_nil, List.append_nil]
      simpa using ih

/-! ## C1 -/

/-- C1. From the initial state, after any finite sequence of transport events the
readiness flag (reported by `GET /api/status`) is true exactly when the sequence holds a
status event (`ready` or `disconnected`) and the latest one is `ready`.  It is false
initially and right after any `disconnected`; `qr`, `message` and `message_ack` keep it. -/
theorem isClientReady_iff_latest_status_ready (rt : Runtime) (P : Str) (es : List TransportEvent) :
    ((applyEvents rt P World.initial es).isClientReady = true ↔
        ∃ e, (es.filter TransportEvent.isStatus).getLast? = some e ∧ e.isReady = true) ∧
    (getStatus (applyEvents rt P World.initial es)).body
        = .status (applyEvents rt P World.initial es).isClientReady ∧
    World.initial.isClientReady = false ∧
    (∀ r, (applyEvents rt P World.initial (es ++ [.disconnected r])).isClientReady = false) ∧
    (∀ w q, (applyEvent rt P w (.qr q)).isClientReady = w.isClientReady) ∧
    (∀ w m, (applyEvent rt P w (.message m)).isClientReady = w.isClientReady) ∧
    (∀ w id ack, (applyEvent rt P w (.message_ack id ack)).isClientReady = w.isClientReady) := by
  refine ⟨?_, rfl, rfl, ?_, ?_, ?_, ?_⟩
  · rw [applyEvents_isClientReady]
    cases (es.filter TransportEvent.isStatus).getLast? with
    | none => simp [World.initial]
    | some e => simp
  · intro r
    rw [applyEvents_append]
    rfl
  · intro w q; exact onQr_isClientReady rt w q
  · intro w m; exact onMessage_isClientReady rt P w m
  · intro w id ack; rfl

/-! ## C2 -/

/-- C2. While the readiness flag is false, `POST /api/send-message` answers 400 with the
not-ready error whatever the phone number and the message, does not call
`client.sendMessage`, emits nothing and leaves the flag as it is. -/
theorem postSendMessage_not_ready (sendMessage : Str → Str → Option Str) (w : World)
    (phoneNumber message : Str) (h : w.isClientReady = false) :
    (postSendMessage sendMessage w phoneNumber message).2
        = { status := 400, body := .error "WhatsApp client not ready".toList } ∧
    (postSendMessage sendMessage w phoneNumber message).1.sendCalls = w.sendCalls ∧
    (postSendMessage sendMessage w phoneNumber message).1.emitted = w.emitted ∧
    (postSendMessage sendMessage w phoneNumber message).1.isClientReady = false ∧
    (postSendMessage sendMessage w phoneNumber message).1 = w := by
  simp [postSendMessage, h]

theorem postSendMessage_not_ready_witness :
    World.initial.isClientReady = false ∧
    (postSendMessage (fun _ _ => some "ID".toList) World.initial "+15551234567".toList
        "hi".toList).1 = World.initial :=
  ⟨rfl, (postSendMessage_not_ready (fun _ _ => some "ID".toList) World.initial
    "+15551234567".toList "hi".toList rfl).2.2.2.2⟩

/-! ## C3 -/

/-- C3. For an inbound message whose body does not start with the configured prefix `P`,
the message handler calls `message.reply` not at all and emits exactly one event, the
`new_message` of that message: no `command_executed`. -/
theorem onMessage_plain_chat (rt : Runtime) (P : Str) (w : World) (message : Message)
    (h : startsWith message.body P = false) :
    (onMessage rt P w message).world.replyCalls = w.replyCalls ∧
    (onMessage rt P w message).world.emitted = w.emitted ++
      [.new_message (replace "@c.us".toList [] message.sender) message.body .incoming none] ∧
    (∀ c p, Emit.command_executed c p ∈ (onMessage rt P w message).world.emitted →
      Emit.command_executed c p ∈ w.emitted) ∧
    (onMessage rt P w message).threw = false := by
  simp [onMessage, h, emit]

theorem onMessage_plain_chat_witness :
    startsWith "hello".toList "!".toList = false ∧
    (onMessage Runtime.sample "!".toList World.initial
      { sender := "15551234567@c.us".toList, body := "hello".toList,
        replyOk := fun _ => true, contact := none }).world.emitted =
      [.new_message "15551234567".toList "hello".toList .incoming none] :=
  ⟨by decide, (onMessage_plain_chat Runtime.sample "!".toList World.initial
      { sender := "15551234567@c.us".toList, body := "hello".toList,
        replyOk := fun _ => true, contact := none } (by decide)).2.1⟩

/-! ## `split`, `join` and `trim` -/

theorem split_ne_nil (sep : Char) (s : Str) : split sep s ≠ [] := by
  cases s with
  | nil => simp [split]
  | cons c cs =>
    unfold split
    split_ifs
    · simp
    · split <;> simp

theorem join_cons_cons (sep : Char) (s t : Str) (rest : List Str) :
    join sep (s :: t :: rest) = s ++ sep :: join sep (t :: rest) := rfl

theorem join_split (sep : Char) (s : Str) : join sep (split sep s) = s := by
  induction s with
  | nil => rfl
  | cons c cs ih =>
    obtain ⟨seg, segs, hs⟩ := List.exists_cons_of_ne_nil (split_ne_nil sep cs)
    rw [hs] at ih
    unfold split
    by_cases hc : c = sep
    · simp only [hc, if_true, hs, join_cons_cons, ih]
      simp
    · simp only [hc, if_false, hs]
      cases segs with
      | nil => simp only [join] at ih ⊢; rw [ih]
      | cons t rest =>
        rw [join_cons_cons] at ih ⊢
        rw [List.cons_append, ih]

theorem not_mem_of_mem_split (sep : Char) (s : Str) :
    ∀ seg ∈ split sep s, sep ∉ seg := by
  induction s with
  | nil => simp [split]
  | cons c cs ih =>
    obtain ⟨seg, segs, hs⟩ := List.exists_cons_of_ne_nil (split_ne_nil sep cs)
    rw [hs] at ih
    unfold split
    by_cases hc : c = sep
    · simp only [hc, if_true, hs]
      intro x hx
      rcases List.mem_cons.mp hx with rfl | hx
      · simp
      · exact ih x hx
    · simp only [hc, if_false, hs]
      intro x hx
      rcases List.mem_cons.mp hx with rfl | hx
      · intro hm
        rcases List.mem_cons.mp hm with h | h
        · exact hc h.symm
        · exact ih seg (List.mem_cons_self _ _) h
      · exact ih x (List.mem_cons_of_mem _ hx)

theorem splitWhere_eq_split (p : Char → Bool) (sep : Char) (s : Str)
    (h : ∀ c ∈ s, p c = true ↔ c = sep) : splitWhere p s = split sep s := by
  induction s with
  | nil => rfl
  | cons c cs ih =>
    have ih := ih (fun d hd => h d (List.mem_cons_of_mem _ hd))
    have hc := h c (List.mem_cons_self _ _)
    unfold splitWhere split
    rw [ih]
    by_cases hs : c = sep
    · have hp : p c = true := hc.mpr hs
      rw [if_pos hp, if_pos hs]
    · have hp : ¬ p c = true := fun hp => hs (hc.mp hp)
      rw [if_neg hp, if_neg hs]

theorem nil_not_mem_split (sep : Char) (s : Str) :
    (∀ c, s.getLast? = some c → c ≠ sep) → ¬ [sep, sep] <:+: s →
    [] ∉ (split sep s).tail ∧ ((∀ c, s.head? = some c → c ≠ sep) → s ≠ [] → [] ∉ split sep s) := by
  induction s with
  | nil =>
    intro _ _
    exact ⟨by simp [split], fun _ h => absurd rfl h⟩
  | cons d ds ih =>
    intro hlast hdbl
    have hdbl2 : ¬ [sep, sep] <:+: ds := fun h => hdbl (List.infix_cons h)
    have hlast2 : ∀ c, ds.getLast? = some c → c ≠ sep := by
      intro c hc
      cases ds with
      | nil => simp at hc
      | cons e es => exact hlast c (by simpa using hc)
    obtain ⟨ih1, ih2⟩ := ih hlast2 hdbl2
    by_cases hd : d = sep
    · have hds : ds ≠ [] := by
        rintro rfl
        exact hlast d (by simp) hd
      have hhead : ∀ c, ds.head? = some c → c ≠ sep := by
        intro c hc hcs
        obtain ⟨e, es, rfl⟩ := List.exists_cons_of_ne_nil hds
        simp at hc
        subst hc hcs hd
        exact hdbl ⟨[], es, by simp⟩
      constructor
      · simp only [split, hd, if_true, List.tail_cons]
        exact ih2 hhead hds
      · intro hh
        exact absurd hd (hh d (by simp))
    · obtain ⟨seg, segs, hs⟩ := List.exists_cons_of_ne_nil (split_ne_nil sep ds)
      rw [hs] at ih1
      simp only [split, hd, if_false, hs, List.tail_cons] at ih1 ⊢
      exact ⟨ih1, fun _ _ => by simp [ih1]⟩

theorem trim_head_not_whiteSpace (s : Str) (c : Char) (h : (trim s).head? = some c) :
    isWhiteSpace c = false := by
  have hp : trim s <+: s.dropWhile isWhiteSpace := List.rdropWhile_prefix _ _
  have h2 : (s.dropWhile isWhiteSpace).head? = some c := by
    obtain ⟨t, ht⟩ := hp
    rw [← ht]
    cases hts : trim s with
    | nil => rw [hts] at h; simp at h
    | cons a as => rw [hts] at h; simpa using h
  have := List.head?_dropWhile_not isWhiteSpace s
  rw [h2] at this
  simpa using this

theorem trim_getLast_not_whiteSpace (s : Str) (c : Char) (h : (trim s).getLast? = some c) :
    isWhiteSpace c = false := by
  unfold trim at h
  rw [List.getLast?_reverse] at h
  have := List.head?_dropWhile_not isWhiteSpace (s.dropWhile isWhiteSpace).reverse
  rw [h] at this
  simpa using this

theorem split_getLast_ne_nil (sep : Char) (s : Str) (hs : s ≠ [])
    (hlast : ∀ c, s.getLast? = some c → c ≠ sep) :
    ∀ seg, (split sep s).getLast? = some seg → seg ≠ [] := by
  induction s with
  | nil => exact absurd rfl hs
  | cons d ds ih =>
    cases ds with
    | nil =>
      have hd : d ≠ sep := hlast d (by simp)
      simp [split, hd]
    | cons e es =>
      have ih := ih (by simp) (fun c hc => hlast c (by simpa using hc))
      obtain ⟨seg, segs, hsp⟩ := List.exists_cons_of_ne_nil (split_ne_nil sep (e :: es))
      rw [hsp] at ih
      unfold split
      by_cases hd : d = sep
      · simp only [hd, if_true, hsp, List.getLast?_cons_cons]
        exact ih
      · simp only [hd, if_false, hsp]
        cases segs with
        | nil => simp
        | cons t rest =>
          simp only [List.getLast?_cons_cons] at ih ⊢
          exact ih

theorem join_eq_nil (sep : Char) (l : List Str) (h : join sep l = []) : l = [] ∨ l = [[]] := by
  cases l with
  | nil => exact Or.inl rfl
  | cons s rest =>
    cases rest with
    | nil => right; simp only [join] at h; rw [h]
    | cons t rest => rw [join_cons_cons] at h; simp at h

theorem splitWhere_ne_nil (p : Char → Bool) (s : Str) : splitWhere p s ≠ [] := by
  cases s with
  | nil => simp [splitWhere]
  | cons c cs =>
    unfold splitWhere
    split_ifs
    · simp
    · split <;> simp

theorem tokens_cons_whiteSpace (c : Char) (s : Str) (h : isWhiteSpace c = true) :
    tokens (c :: s) = tokens s := by
  simp [tokens, splitWhere, h]

theorem tokens_dropWhile (s : Str) : tokens (s.dropWhile isWhiteSpace) = tokens s := by
  induction s with
  | nil => rfl
  | cons c cs ih =>
    by_cases h : isWhiteSpace c = true
    · rw [List.dropWhile_cons_of_pos h, ih, tokens_cons_whiteSpace c cs h]
    · rw [List.dropWhile_cons_of_neg h]

theorem splitWhere_append_singleton (p : Char → Bool) (s : Str) (c : Char) (h : p c = true) :
    splitWhere p (s ++ [c]) = splitWhere p s ++ [[]] := by
  induction s with
  | nil => simp [splitWhere, h]
  | cons d ds ih =>
    obtain ⟨seg, segs, hs⟩ := List.exists_cons_of_ne_nil (splitWhere_ne_nil p ds)
    rw [List.cons_append]
    unfold splitWhere
    rw [ih, hs]
    by_cases hd : p d = true
    · rw [if_pos hd, if_pos hd]; rfl
    · rw [if_neg hd, if_neg hd]; rfl

theorem tokens_append_whiteSpace (u : Str) (hu : ∀ c ∈ u, isWhiteSpace c = true) (s : Str) :
    tokens (s ++ u) = tokens s := by
  induction u generalizing s with
  | nil => simp
  | cons c u ih =>
    have hc : isWhiteSpace c = true := hu c (List.mem_cons_self _ _)
    have : s ++ c :: u = (s ++ [c]) ++ u := by simp
    rw [this, ih (fun d hd => hu d (List.mem_cons_of_mem _ hd))]
    simp [tokens, splitWhere_append_singleton isWhiteSpace s c hc]

theorem tokens_trim (s : Str) : tokens (trim s) = tokens s := by
  have h := List.takeWhile_append_dropWhile isWhiteSpace (s.dropWhile isWhiteSpace).reverse
  have h2 : s.dropWhile isWhiteSpace
      = trim s ++ ((s.dropWhile isWhiteSpace).reverse.takeWhile isWhiteSpace).reverse := by
    have := congrArg List.reverse h
    rw [List.reverse_append, List.reverse_reverse] at this
    exact this.symm
  have h3 : tokens (s.dropWhile isWhiteSpace) = tokens (trim s) := by
    rw [h2]
    apply tokens_append_whiteSpace
    intro c hc
    exact List.mem_takeWhile_imp (List.mem_reverse.mp hc)
  rw [← h3, tokens_dropWhile]

/-- When the only whitespace of the trimmed text is single spaces between its tokens,
`split(' ')` gives the tokens. -/
theorem split_trim_eq_tokens (s : Str)
    (hws : ∀ c ∈ trim s, isWhiteSpace c = true → c = ' ')
    (hdbl : ¬ [' ', ' '] <:+: trim s) (hne : trim s ≠ []) :
    split ' ' (trim s) = tokens s := by
  have hhead : ∀ c, (trim s).head? = some c → c ≠ ' ' := by
    intro c hc h
    have := trim_head_not_whiteSpace s c hc
    rw [h] at this
    exact absurd this (by decide)
  have hlast : ∀ c, (trim s).getLast? = some c → c ≠ ' ' := by
    intro c hc h
    have := trim_getLast_not_whiteSpace s c hc
    rw [h] at this
    exact absurd this (by decide)
  have hnil : [] ∉ split ' ' (trim s) := (nil_not_mem_split ' ' (trim s) hlast hdbl).2 hhead hne
  have hsw : splitWhere isWhiteSpace (trim s) = split ' ' (trim s) := by
    apply splitWhere_eq_split
    intro c hc
    constructor
    · exact hws c hc
    · rintro rfl; decide
  rw [← tokens_trim, tokens, hsw]
  symm
  rw [List.filter_eq_self]
  intro x hx
  cases x with
  | nil => exact absurd hx hnil
  | cons a as => rfl

/-! ## Commands: the text after the prefix -/

theorem startsWith_append (P rest : Str) : startsWith (P ++ rest) P = true := by
  simp [startsWith]

theorem commandOf_append_ping (rt : Runtime) (P : Str) :
    commandOf rt P (P ++ "ping".toList) = "ping".toList := by
  have h : (split ' ' (trim "ping".toList)).headD [] = "ping".toList := by decide
  unfold commandOf
  rw [List.drop_left, h]
  rfl

theorem argsOf_append_ping (P : Str) : argsOf P (P ++ "ping".toList) = [] := by
  unfold argsOf
  rw [List.drop_left]
  decide

theorem reply_ok (w : World) (message : Message) (n : Nat) (text : Str)
    (h : message.replyOk n = true) :
    reply w message n text
      = { world := { w with replyCalls := w.replyCalls ++ [text] }, threw := false } := by
  simp [reply, h]

/-- When `getContact` resolves for `info`, the `switch` of `handleCommand` is one reply. -/
theorem commandSwitch_eq_reply (w : World) (message : Message) (command : Str)
    (args : List Str) (phoneNumber : Str)
    (hc : command = "info".toList → message.contact.isSome = true) :
    ∃ text, commandSwitch w message command args phoneNumber = reply w message 1 text := by
  unfold commandSwitch
  split_ifs with h1 h2 h3 h4
  · exact ⟨_, rfl⟩
  · exact ⟨_, rfl⟩
  · obtain ⟨c, hc⟩ := Option.isSome_iff_exists.mp (hc h3)
    rw [hc]
    exact ⟨_, rfl⟩
  · exact ⟨_, rfl⟩
  · exact ⟨_, rfl⟩

/-- The run of `handleCommand` when every reply resolves and, for `info`, the contact is
fetched: the acknowledgement, the reply of the command, then `command_executed`. -/
theorem handleCommand_replies_ok (w : World) (message : Message) (command : Str)
    (args : List Str) (phoneNumber : Str) (hr : ∀ n, message.replyOk n = true)
    (hc : command = "info".toList → message.contact.isSome = true) :
    ∃ text, handleCommand w message command args phoneNumber =
      { world := { w with replyCalls := w.replyCalls ++ [ackText command, text],
                          emitted := w.emitted ++ [.command_executed command phoneNumber] },
        threw := false } := by
  obtain ⟨text, ht⟩ := commandSwitch_eq_reply
    (reply w message 0 (ackText command)).world message command args phoneNumber hc
  refine ⟨text, ?_⟩
  unfold handleCommand
  simp only [ht]
  simp [reply_ok, hr, emit]

/-! ## C4 -/

/-- C4, as the code has it. For every prefix `P` and sender, a message with body
`P ++ "ping"` whose replies all resolve gets two replies, in this order: the
acknowledgement `Command: ping executed!` that `handleCommand` sends for every command,
then the pong text; one `command_executed` with command `ping` is emitted, before the
`new_message` of the message. -/
theorem onMessage_ping (rt : Runtime) (P : Str) (w : World) (message : Message)
    (hb : message.body = P ++ "ping".toList) (hr : ∀ n, message.replyOk n = true) :
    (onMessage rt P w message).world.replyCalls
      = w.replyCalls ++ ["Command: ping executed!".toList, "Pong! Bot is alive 🚀".toList] ∧
    (onMessage rt P w message).world.emitted
      = w.emitted ++
        [.command_executed "ping".toList (replace "@c.us".toList [] message.sender),
         .new_message (replace "@c.us".toList [] message.sender) message.body .incoming none] ∧
    (onMessage rt P w message).threw = false := by
  unfold onMessage
  simp only [hb, startsWith_append, commandOf_append_ping, argsOf_append_ping, if_true]
  simp [handleCommand, commandSwitch, reply, hr, emit, ackText, pongText]

theorem onMessage_ping_witness :
    (onMessage Runtime.sample "!".toList World.initial
      { sender := "15551234567@c.us".toList, body := "!".toList ++ "ping".toList,
        replyOk := fun _ => true, contact := none }).world.replyCalls
      = [] ++ ["Command: ping executed!".toList, "Pong! Bot is alive 🚀".toList] :=
  (onMessage_ping Runtime.sample "!".toList World.initial
      { sender := "15551234567@c.us".toList, body := "!".toList ++ "ping".toList,
        replyOk := fun _ => true, contact := none } rfl (fun _ => rfl)).1

/-- C4 fails as stated: with prefix `!`, the message `!ping` gets two replies, not the
pong text alone. -/
theorem ping_replies_twice :
    (onMessage Runtime.sample "!".toList World.initial
      { sender := "15551234567@c.us".toList, body := "!ping".toList,
        replyOk := fun _ => true, contact := none }).world.replyCalls
      = ["Command: ping executed!".toList, "Pong! Bot is alive 🚀".toList] ∧
    (onMessage Runtime.sample "!".toList World.initial
      { sender := "15551234567@c.us".toList, body := "!ping".toList,
        replyOk := fun _ => true, contact := none }).world.replyCalls
      ≠ ["Pong! Bot is alive 🚀".toList] := by
  decide

/-! ## C5 -/

/-- C5, as the code has it. For every message whose body starts with `P`, with `t` the
trimmed text after `P`: `handleCommand` is called with the lower-cased first piece of `t`
as command and the other pieces as args, where the pieces are those of `t` cut at every
single space character: no piece holds a space, and the pieces joined with single spaces,
in their order and case, give `t` back.  When the only whitespace inside `t` is single
spaces between tokens, these are the whitespace-delimited tokens of the text after `P`:
the command is the lower-cased first token and args the remaining tokens. -/
theorem command_args_cut_at_spaces (rt : Runtime) (P : Str) (w : World) (message : Message)
    (hp : startsWith message.body P = true) :
    (∃ raw,
      split ' ' (trim (message.body.drop P.length)) = raw :: argsOf P message.body ∧
      commandOf rt P message.body = toLowerCase rt raw ∧
      join ' ' (raw :: argsOf P message.body) = trim (message.body.drop P.length) ∧
      (∀ piece ∈ raw :: argsOf P message.body, ' ' ∉ piece) ∧
      onMessage rt P w message =
        (if (handleCommand w message (toLowerCase rt raw) (argsOf P message.body)
              (replace "@c.us".toList [] message.sender)).threw
         then handleCommand w message (toLowerCase rt raw) (argsOf P message.body)
              (replace "@c.us".toList [] message.sender)
         else
          { world := emit (handleCommand w message (toLowerCase rt raw) (argsOf P message.body)
              (replace "@c.us".toList [] message.sender)).world
              (.new_message (replace "@c.us".toList [] message.sender) message.body
                .incoming none),
            threw := false })) ∧
    ((∀ c ∈ trim (message.body.drop P.length), isWhiteSpace c = true → c = ' ') →
      ¬ [' ', ' '] <:+: trim (message.body.drop P.length) →
      commandOf rt P message.body
        = toLowerCase rt ((tokens (message.body.drop P.length)).headD []) ∧
      argsOf P message.body = (tokens (message.body.drop P.length)).tail) := by
  constructor
  · obtain ⟨raw, args, hs⟩ := List.exists_cons_of_ne_nil
      (split_ne_nil ' ' (trim (message.body.drop P.length)))
    have hargs : argsOf P message.body = args := by simp [argsOf, hs]
    have hcmd : commandOf rt P message.body = toLowerCase rt raw := by simp [commandOf, hs]
    refine ⟨raw, by rw [hargs, hs], hcmd, ?_, ?_, ?_⟩
    · rw [hargs, ← hs, join_split]
    · rw [hargs, ← hs]
      exact not_mem_of_mem_split ' ' _
    · unfold onMessage
      simp only [hp, if_true, hcmd]
  · intro hws hdbl
    by_cases hne : trim (message.body.drop P.length) = []
    · have ht : tokens (message.body.drop P.length) = [] := by
        rw [← tokens_trim, hne]; rfl
      simp [commandOf, argsOf, hne, ht, split]
    · have hs := split_trim_eq_tokens (message.body.drop P.length) hws hdbl hne
      simp [commandOf, argsOf, hs]

theorem command_args_cut_at_spaces_witness :
    startsWith "!Echo Hello  big World".toList "!".toList = true ∧
    commandOf Runtime.sample "!".toList "!Echo Hello  big World".toList = toLowerCase Runtime.sample "Echo".toList ∧
    join ' ' ("Echo".toList :: argsOf "!".toList "!Echo Hello  big World".toList)
      = "Echo Hello  big World".toList := by
  obtain ⟨raw, hs, hc, hj, -, -⟩ := (command_args_cut_at_spaces Runtime.sample "!".toList World.initial
      { sender := "15551234567@c.us".toList, body := "!Echo Hello  big World".toList,
        replyOk := fun _ => true, contact := none } (by decide)).1
  have hraw : raw = "Echo".toList := by
    have h := congrArg (fun l => List.headD l []) hs
    simp only [List.headD_cons] at h
    rw [← h]
    decide
  subst hraw
  exact ⟨by decide, hc, hj⟩

/-- C5 fails as stated: two spaces between tokens give an empty string among the args, and
a tab between tokens leaves them glued in the command name. -/
theorem split_keeps_empty_and_tabs :
    argsOf "!".toList "!echo  a".toList = [[], "a".toList] ∧
    (tokens ("!echo  a".toList.drop 1)).tail = ["a".toList] ∧
    argsOf "!".toList "!echo  a".toList ≠ (tokens ("!echo  a".toList.drop 1)).tail ∧
    commandOf Runtime.sample "!".toList "!echo\ta".toList = "echo\ta".toList ∧
    toLowerCase Runtime.sample ((tokens ("!echo\ta".toList.drop 1)).headD []) = "echo".toList ∧
    commandOf Runtime.sample "!".toList "!echo\ta".toList
      ≠ toLowerCase Runtime.sample ((tokens ("!echo\ta".toList.drop 1)).headD []) := by
  decide

/-! ## C6 -/

theorem commandSwitch_echo (w : World) (message : Message) (args : List Str)
    (phoneNumber : Str) :
    commandSwitch w message "echo".toList args phoneNumber
      = reply w message 1 (echoText args) := by
  unfold commandSwitch
  rw [if_neg (by decide), if_neg (by decide), if_neg (by decide), if_pos rfl]

/-- The args of a command never join to the empty string. -/
theorem join_argsOf_ne_nil (P body : Str) (h : argsOf P body ≠ []) :
    join ' ' (argsOf P body) ≠ [] := by
  intro hj
  rcases join_eq_nil ' ' _ hj with h0 | h1
  · exact h h0
  · obtain ⟨raw, args, hs⟩ := List.exists_cons_of_ne_nil
      (split_ne_nil ' ' (trim (body.drop P.length)))
    have hargs : argsOf P body = args := by simp [argsOf, hs]
    rw [hargs] at h1
    have hne : trim (body.drop P.length) ≠ [] := by
      intro he
      rw [he] at hs
      simp [split, h1] at hs
    have hlast : ∀ c, (trim (body.drop P.length)).getLast? = some c → c ≠ ' ' := by
      intro c hc hsp
      have := trim_getLast_not_whiteSpace _ c hc
      rw [hsp] at this
      exact absurd this (by decide)
    have := split_getLast_ne_nil ' ' _ hne hlast []
    rw [hs, h1] at this
    exact this rfl rfl

/-- C6. When the body of a message starts with `P` and its command name is `echo`, the
reply of the echo case (sent after the acknowledgement) is the args joined with single
spaces when there are args and `Please provide text to echo!` when there are none; it is
never the empty string.  The args `a`, `b` give `a b`. -/
theorem echo_reply (rt : Runtime) (P : Str) (w : World) (message : Message)
    (hp : startsWith message.body P = true)
    (hc : commandOf rt P message.body = "echo".toList)
    (hr : message.replyOk 0 = true) :
    (onMessage rt P w message).world.replyCalls
      = w.replyCalls ++ ["Command: echo executed!".toList, echoText (argsOf P message.body)] ∧
    echoText (argsOf P message.body)
      = (if argsOf P message.body = [] then "Please provide text to echo!".toList
         else join ' ' (argsOf P message.body)) ∧
    echoText (argsOf P message.body) ≠ [] ∧
    echoText ["a".toList, "b".toList] = "a b".toList ∧
    echoText [] = "Please provide text to echo!".toList := by
  refine ⟨?_, ?_, ?_, by decide, by decide⟩
  · unfold onMessage handleCommand
    simp only [hp, if_true, hc, commandSwitch_echo, reply_ok _ _ 0 _ hr]
    cases h1 : message.replyOk 1 <;> simp [reply, h1, emit, ackText]
  · cases h : argsOf P message.body with
    | nil => rfl
    | cons a as => simp [echoText]
  · cases h : argsOf P message.body with
    | nil => decide
    | cons a as =>
      have := join_argsOf_ne_nil P message.body (by rw [h]; simp)
      rw [h] at this
      simpa [echoText] using this

theorem echo_reply_witness :
    (onMessage Runtime.sample "!".toList World.initial
      { sender := "15551234567@c.us".toList, body := "!ECHO a b".toList,
        replyOk := fun _ => true, contact := none }).world.replyCalls
      = [] ++ ["Command: echo executed!".toList,
               echoText (argsOf "!".toList "!ECHO a b".toList)] :=
  (echo_reply Runtime.sample "!".toList World.initial
      { sender := "15551234567@c.us".toList, body := "!ECHO a b".toList,
        replyOk := fun _ => true, contact := none } (by decide) (by decide) rfl).1

/-! ## C7 -/

/-- The expression that formats the phone number: the result starts with `+`, is the
number itself when that starts with `+` and `+` followed by it otherwise, and formatting
twice is formatting once. -/
theorem formattedNumber_spec (p : Str) :
    (formattedNumber p).head? = some '+' ∧
    formattedNumber p = (if p.head? = some '+' then p else '+' :: p) ∧
    formattedNumber (formattedNumber p) = formattedNumber p := by
  cases p with
  | nil => exact ⟨rfl, rfl, rfl⟩
  | cons c cs =>
    by_cases h : c = '+'
    · simp [formattedNumber, startsWith, h]
    · have h2 : ¬ '+' = c := fun e => h e.symm
      simp [formattedNumber, startsWith, h, h2]

/-- C7, as the code has it. A send made from the dashboard form with a phone number and a
message that are not empty once trimmed, while the session is ready, hands the transport
the chat identifier built from the canonical form of the trimmed phone number `p`: the
canonical form followed by `@c.us`, where the canonical form starts with `+`, is `p` when
`p` starts with `+` and `+` followed by `p` otherwise, so that formatting is idempotent. -/
theorem dashboardSend_canonical (sendMessage : Str → Str → Option Str) (w : World)
    (phoneField messageField : Str) (hp : trim phoneField ≠ [])
    (hm : trim messageField ≠ []) (hr : w.isClientReady = true) :
    (dashboardSend sendMessage w phoneField messageField).1.sendCalls
      = w.sendCalls ++
        [(formattedNumber (trim phoneField) ++ "@c.us".toList, trim messageField)] ∧
    (formattedNumber (trim phoneField)).head? = some '+' ∧
    formattedNumber (trim phoneField)
      = (if (trim phoneField).head? = some '+' then trim phoneField
         else '+' :: trim phoneField) ∧
    formattedNumber (formattedNumber (trim phoneField)) = formattedNumber (trim phoneField) ∧
    formattedNumber "15551234567".toList = "+15551234567".toList ∧
    formattedNumber "+15551234567".toList = "+15551234567".toList := by
  obtain ⟨h1, h2, h3⟩ := formattedNumber_spec (trim phoneField)
  refine ⟨?_, h1, h2, h3, by decide, by decide⟩
  have hd : dashboardSendMessage phoneField messageField
      = .post { phoneNumber := formattedNumber (trim phoneField),
                message := trim messageField } := by
    unfold dashboardSendMessage
    simp [hp, hm]
  unfold dashboardSend
  rw [hd]
  simp only
  unfold postSendMessage
  simp only [hr]
  cases sendMessage (formattedNumber (trim phoneField) ++ "@c.us".toList)
    (trim messageField) <;> simp [emit]

theorem dashboardSend_canonical_witness :
    (trim " 15551234567 ".toList ≠ [] ∧ trim "hi".toList ≠ []) ∧
    (dashboardSend (fun _ _ => some "3EB0".toList) ⟨true, [], [], []⟩
        " 15551234567 ".toList "hi".toList).1.sendCalls
      = [] ++ [(formattedNumber (trim " 15551234567 ".toList) ++ "@c.us".toList,
                trim "hi".toList)] :=
  ⟨by decide, (dashboardSend_canonical (fun _ _ => some "3EB0".toList) ⟨true, [], [], []⟩
      " 15551234567 ".toList "hi".toList (by decide) (by decide) rfl).1⟩

/-- C7 fails as stated: the route adds no `+`, so the phone number `15551234567` posted
to it reaches the transport as `15551234567@c.us`; and the dashboard trims the field
first, so ` 15551234567` reaches it as `+15551234567@c.us`, not as `+` followed by the
field. -/
theorem postSendMessage_adds_no_plus :
    (postSendMessage (fun _ _ => some "3EB0".toList) ⟨true, [], [], []⟩
        "15551234567".toList "hi".toList).1.sendCalls
      = [("15551234567@c.us".toList, "hi".toList)] ∧
    (dashboardSend (fun _ _ => some "3EB0".toList) ⟨true, [], [], []⟩
        " 15551234567".toList "hi".toList).1.sendCalls
      = [("+15551234567@c.us".toList, "hi".toList)] ∧
    (dashboardSend (fun _ _ => some "3EB0".toList) ⟨true, [], [], []⟩
        " 15551234567".toList "hi".toList).1.sendCalls
      ≠ [('+' :: " 15551234567".toList ++ "@c.us".toList, "hi".toList)] := by
  decide

/-! ## C8 -/

/-- C8. While ready, `POST /api/send-message` calls `client.sendMessage` once with the chat
identifier `phoneNumber@c.us`; when the call resolves with id `id` it emits exactly one
event, the outgoing `new_message` with the phone number, the message and `id`, and answers
with `messageId = id`; when the call rejects it emits nothing and answers 500 with an
error. -/
theorem postSendMessage_ready (sendMessage : Str → Str → Option Str) (w : World)
    (phoneNumber message : Str) (h : w.isClientReady = true) :
    (postSendMessage sendMessage w phoneNumber message).1.sendCalls
      = w.sendCalls ++ [(phoneNumber ++ "@c.us".toList, message)] ∧
    (postSendMessage sendMessage w phoneNumber message).1.emitted
      = w.emitted ++
        (match sendMessage (phoneNumber ++ "@c.us".toList) message with
         | some id => [.new_message phoneNumber message .outgoing (some id)]
         | none => []) ∧
    (postSendMessage sendMessage w phoneNumber message).2
      = (match sendMessage (phoneNumber ++ "@c.us".toList) message with
         | some id => { status := 200, body := .success id }
         | none => { status := 500, body := .error "Failed to send message".toList }) ∧
    (postSendMessage sendMessage w phoneNumber message).1.isClientReady = true ∧
    (postSendMessage sendMessage w phoneNumber message).1.replyCalls = w.replyCalls := by
  unfold postSendMessage
  simp only [h]
  cases sendMessage (phoneNumber ++ "@c.us".toList) message <;> simp [emit, h]

theorem postSendMessage_ready_witness :
    (⟨true, [], [], []⟩ : World).isClientReady = true ∧
    (postSendMessage (fun _ _ => some "3EB0".toList) ⟨true, [], [], []⟩
        "+15551234567".toList "hi".toList).1.emitted
      = [] ++ [.new_message "+15551234567".toList "hi".toList .outgoing (some "3EB0".toList)] :=
  ⟨rfl, (postSendMessage_ready (fun _ _ => some "3EB0".toList) ⟨true, [], [], []⟩
      "+15551234567".toList "hi".toList rfl).2.1⟩

/-! ## C9 -/

/-- C9, as the code has it. A send made from the dashboard whose phone number or message
is empty once trimmed ends in the dashboard: `sendMessage` shows `Please fill in all
fields` and posts no request, so `client.sendMessage` is not called and nothing is
emitted, ready or not. -/
theorem dashboardSend_empty_field (sendMessage : Str → Str → Option Str) (w : World)
    (phoneField messageField : Str) (h : trim phoneField = [] ∨ trim messageField = []) :
    dashboardSendMessage phoneField messageField
      = .notifyError "Please fill in all fields".toList ∧
    dashboardSend sendMessage w phoneField messageField = (w, none) := by
  have hd : dashboardSendMessage phoneField messageField
      = .notifyError "Please fill in all fields".toList := by
    unfold dashboardSendMessage
    rcases h with h | h <;> simp [h]
  exact ⟨hd, by simp [dashboardSend, hd]⟩

theorem dashboardSend_empty_field_witness :
    (trim "  ".toList = [] ∨ trim "hi".toList = []) ∧
    dashboardSend (fun _ _ => some "3EB0".toList) ⟨true, [], [], []⟩ "  ".toList "hi".toList
      = (⟨true, [], [], []⟩, none) :=
  ⟨by decide, (dashboardSend_empty_field (fun _ _ => some "3EB0".toList) ⟨true, [], [], []⟩
      "  ".toList "hi".toList (by decide)).2⟩

/-- C9 fails as stated: while ready, the route takes an empty phone number, and an empty
message, to the transport and emits the outgoing `new_message`. -/
theorem postSendMessage_accepts_empty :
    postSendMessage (fun _ _ => some "3EB0".toList) ⟨true, [], [], []⟩ [] "hi".toList
      = (⟨true, [.new_message [] "hi".toList .outgoing (some "3EB0".toList)], [],
          [("@c.us".toList, "hi".toList)]⟩,
         { status := 200, body := .success "3EB0".toList }) ∧
    postSendMessage (fun _ _ => some "3EB0".toList) ⟨true, [], [], []⟩
        "+15551234567".toList []
      = (⟨true, [.new_message "+15551234567".toList [] .outgoing (some "3EB0".toList)], [],
          [("+15551234567@c.us".toList, [])]⟩,
         { status := 200, body := .success "3EB0".toList }) := by
  decide

/-! ## C10 -/

/-- C10, as the code has it. For every inbound message whose body starts with the prefix,
when every reply resolves (and, for `info`, the contact is fetched) the handler emits
exactly one `command_executed`, carrying the parsed command name and the sender with its
first `@c.us` removed, followed by the `new_message` of the message, and ends without a
fault. -/
theorem onMessage_command_executed (rt : Runtime) (P : Str) (w : World) (message : Message)
    (hp : startsWith message.body P = true) (hr : ∀ n, message.replyOk n = true)
    (hc : commandOf rt P message.body = "info".toList → message.contact.isSome = true) :
    (onMessage rt P w message).world.emitted
      = w.emitted ++
        [.command_executed (commandOf rt P message.body)
            (replace "@c.us".toList [] message.sender),
         .new_message (replace "@c.us".toList [] message.sender) message.body .incoming none] ∧
    (onMessage rt P w message).threw = false := by
  obtain ⟨text, ht⟩ := handleCommand_replies_ok w message (commandOf rt P message.body)
    (argsOf P message.body) (replace "@c.us".toList [] message.sender) hr hc
  unfold onMessage
  simp only [hp, if_true, ht]
  simp [emit]

theorem onMessage_command_executed_witness :
    (onMessage Runtime.sample "!".toList World.initial
      { sender := "15551234567@c.us".toList, body := "!Echo a b".toList,
        replyOk := fun _ => true, contact := none }).world.emitted
      = [] ++
        [.command_executed (commandOf Runtime.sample "!".toList "!Echo a b".toList)
            (replace "@c.us".toList [] "15551234567@c.us".toList),
         .new_message (replace "@c.us".toList [] "15551234567@c.us".toList)
            "!Echo a b".toList .incoming none] :=
  (onMessage_command_executed Runtime.sample "!".toList World.initial
      { sender := "15551234567@c.us".toList, body := "!Echo a b".toList,
        replyOk := fun _ => true, contact := none }
      (by decide) (fun _ => rfl) (by decide)).1

/-- C10 fails as stated: when the reply of `!ping` is rejected, the handler ends with the
fault and has emitted nothing, no `command_executed` and no `new_message`. -/
theorem failing_reply_stops_handler :
    (onMessage Runtime.sample "!".toList World.initial
      { sender := "15551234567@c.us".toList, body := "!ping".toList,
        replyOk := fun _ => false, contact := none }).threw = true ∧
    (onMessage Runtime.sample "!".toList World.initial
      { sender := "15551234567@c.us".toList, body := "!ping".toList,
        replyOk := fun _ => false, contact := none }).world.emitted = [] ∧
    (onMessage Runtime.sample "!".toList World.initial
      { sender := "15551234567@c.us".toList, body := "!ping".toList,
        replyOk := fun n => decide (n = 0), contact := none }).threw = true ∧
    (onMessage Runtime.sample "!".toList World.initial
      { sender := "15551234567@c.us".toList, body := "!ping".toList,
        replyOk := fun n => decide (n = 0), contact := none }).world.emitted = [] := by
  decide

/-! ## C11 -/

/-- The message handler ends without a fault when the body is plain chat, and when it is a
command whose replies resolve and whose contact, for `info`, is fetched. -/
theorem onMessage_no_fault (rt : Runtime) (P : Str) (w : World) (message : Message)
    (h : startsWith message.body P = true →
      (∀ n, message.replyOk n = true) ∧
      (commandOf rt P message.body = "info".toList → message.contact.isSome = true)) :
    (onMessage rt P w message).threw = false := by
  by_cases hp : startsWith message.body P = true
  · obtain ⟨hr, hc⟩ := h hp
    obtain ⟨text, ht⟩ := handleCommand_replies_ok w message (commandOf rt P message.body)
      (argsOf P message.body) (replace "@c.us".toList [] message.sender) hr hc
    unfold onMessage
    simp only [hp, if_true, ht]
    simp
  · unfold onMessage
    simp [hp]

/-- C11, as the code has it. On a malformed payload (a message whose `from` or `body` is
missing or not a string, an acknowledgement whose `msg` has no `id`) the entry point emits
no event and leaves the readiness flag, and everything else, as it was.  On the payloads
they expect, the `ready`, `disconnected` and `message_ack` entry points end without a
fault; so does the `qr` entry point when `qrcode.generate` returns, and when it throws
nothing is emitted; so does the `message` entry point when the body is no command or when
the replies of the command resolve and, for `info`, the contact is fetched. -/
theorem entry_points_on_payloads (rt : Runtime) (P : Str) (w : World) :
    (∀ e, e.malformed = true →
      (dispatchRaw rt P w e).world.emitted = w.emitted ∧
      (dispatchRaw rt P w e).world.isClientReady = w.isClientReady ∧
      (dispatchRaw rt P w e).world = w) ∧
    (∀ q, rt.qrcodeGenerate q = true → (dispatchRaw rt P w (.qr q)).threw = false) ∧
    (∀ q, rt.qrcodeGenerate q = false → (dispatchRaw rt P w (.qr q)).world = w) ∧
    (dispatchRaw rt P w .ready).threw = false ∧
    (∀ r, (dispatchRaw rt P w (.disconnected r)).threw = false) ∧
    (∀ id ack, (dispatchRaw rt P w (.message_ack (some id) ack)).threw = false) ∧
    (∀ s b ok c,
      (startsWith b P = true →
        (∀ n, ok n = true) ∧ (commandOf rt P b = "info".toList → c.isSome = true)) →
      (dispatchRaw rt P w
        (.message { sender := .string s, body := .string b, replyOk := ok,
                    contact := c })).threw = false) := by
  refine ⟨?_, ?_, ?_, rfl, fun _ => rfl, fun _ _ => rfl, ?_⟩
  rotate_left
  · intro q hq
    show (onQr rt w q).threw = false
    simp [onQr, hq]
  · intro q hq
    show (onQr rt w q).world = w
    simp [onQr, hq]
  · intro s b ok c h
    exact onMessage_no_fault rt P w
      { sender := s, body := b, replyOk := ok, contact := c } h
  · intro e he
    cases e with
    | qr q => simp [RawEvent.malformed] at he
    | ready => simp [RawEvent.malformed] at he
    | disconnected r => simp [RawEvent.malformed] at he
    | message m =>
      have hw : (dispatchRaw rt P w (.message m)).world = w := by
        obtain ⟨sender, body, ok, c⟩ := m
        cases sender <;> cases body <;> first
          | rfl
          | (simp [RawEvent.malformed] at he)
      exact ⟨by rw [hw], by rw [hw], hw⟩
    | message_ack id ack =>
      cases id with
      | none => exact ⟨rfl, rfl, rfl⟩
      | some id => simp [RawEvent.malformed] at he

/-- C11 fails as stated: a message without `from`, a message whose `body` is no string,
and an acknowledgement whose `msg` has no `id` each end their handler with a fault. -/
theorem malformed_payload_throws :
    (dispatchRaw Runtime.sample "!".toList World.initial
      (.message { sender := .undefined, body := .string "hello".toList,
                  replyOk := fun _ => true, contact := none })).threw = true ∧
    (dispatchRaw Runtime.sample "!".toList World.initial
      (.message { sender := .string "15551234567@c.us".toList, body := .other,
                  replyOk := fun _ => true, contact := none })).threw = true ∧
    (dispatchRaw Runtime.sample "!".toList World.initial (.message_ack none 2)).threw = true := by
  decide

/-! ## C12 -/

/-- A string without the pattern is left as it is by `replace`. -/
theorem replace_pattern_absent (pat rep s : Str) (h : ¬ pat <:+: s) : replace pat rep s = s := by
  induction s with
  | nil =>
    have hne : pat ≠ [] := by
      rintro rfl
      exact h List.nil_infix
    simp [replace, hne]
  | cons c cs ih =>
    have hp : pat.isPrefixOf (c :: cs) = false := by
      cases hb : pat.isPrefixOf (c :: cs) with
      | false => rfl
      | true => exact absurd (List.isPrefixOf_iff_prefix.mp hb).isInfix h
    rw [replace, hp]
    simp only [Bool.false_eq_true, if_false]
    rw [ih (fun hi => h (List.infix_cons hi))]

/-- A pattern whose first character does not come again in it, put after a string without
the pattern, is what `replace` finds and replaces. -/
theorem replace_append_pattern (a : Char) (r rep : Str) (ha : a ∉ r) (n : Str)
    (hn : ¬ (a :: r) <:+: n) : replace (a :: r) rep (n ++ a :: r) = n ++ rep := by
  induction n with
  | nil =>
    have hp : (a :: r).isPrefixOf (a :: r) = true :=
      List.isPrefixOf_iff_prefix.mpr (List.prefix_refl _)
    rw [List.nil_append, replace, hp]
    simp
  | cons c cs ih =>
    have hp : (a :: r).isPrefixOf (c :: (cs ++ a :: r)) = false := by
      cases hb : (a :: r).isPrefixOf (c :: (cs ++ a :: r)) with
      | false => rfl
      | true =>
        exfalso
        have hpre : a :: r <+: (c :: cs) ++ a :: r := List.isPrefixOf_iff_prefix.mp hb
        have h1 : c :: cs <+: (c :: cs) ++ a :: r := List.prefix_append _ _
        rcases le_total (a :: r).length (c :: cs).length with hl | hl
        · exact hn (List.prefix_of_prefix_length_le hpre h1 hl).isInfix
        · obtain ⟨t, ht⟩ := List.prefix_of_prefix_length_le h1 hpre hl
          obtain ⟨u, hu⟩ := hpre
          rw [← ht] at hu
          simp only [List.append_assoc] at hu
          have hu2 := List.append_cancel_left hu
          have hca : c = a := by
            have := congrArg List.head? ht
            simpa using this
          have hr : r = cs ++ t := by
            have := congrArg List.tail ht
            simpa using this.symm
          cases t with
          | nil =>
            rw [List.append_nil] at ht
            exact hn ⟨[], [], by simp [ht]⟩
          | cons d t2 =>
            have hd : d = c := by
              have := congrArg List.head? hu2
              simpa using this
            apply ha
            rw [hr, ← hca, ← hd]
            simp
    rw [List.cons_append, replace, hp]
    simp only [Bool.false_eq_true, if_false]
    rw [ih (fun hi => hn (List.infix_cons hi))]
    rfl

theorem commandSwitch_emitted (w : World) (message : Message) (command : Str)
    (args : List Str) (phoneNumber : Str) :
    (commandSwitch w message command args phoneNumber).world.emitted = w.emitted := by
  unfold commandSwitch
  split_ifs
  · rfl
  · rfl
  · cases message.contact <;> rfl
  · rfl
  · rfl

/-- What `handleCommand` emits: `command_executed` when it ends without a fault, nothing
otherwise. -/
theorem handleCommand_emitted (w : World) (message : Message) (command : Str)
    (args : List Str) (phoneNumber : Str) :
    (handleCommand w message command args phoneNumber).world.emitted
      = if (handleCommand w message command args phoneNumber).threw then w.emitted
        else w.emitted ++ [.command_executed command phoneNumber] := by
  unfold handleCommand
  simp only
  cases h0 : (reply w message 0 (ackText command)).threw
  · simp only [Bool.false_eq_true, if_false]
    cases h1 : (commandSwitch (reply w message 0 (ackText command)).world message
        command args phoneNumber).threw
    · simp only [Bool.false_eq_true, if_false]
      show (commandSwitch _ _ _ _ _).world.emitted ++ _ = _
      rw [commandSwitch_emitted]
      rfl
    · simp only [if_true, h1]
      rw [commandSwitch_emitted]
      rfl
  · simp only [if_true, h0]
    rfl

/-- The events a run of the message handler adds all carry the same identifier. -/
theorem onMessage_emitted (rt : Runtime) (P : Str) (w : World) (message : Message) :
    ∃ added, (onMessage rt P w message).world.emitted = w.emitted ++ added ∧
      ∀ e ∈ added,
        e = .command_executed (commandOf rt P message.body)
              (replace "@c.us".toList [] message.sender) ∨
        e = .new_message (replace "@c.us".toList [] message.sender) message.body
              .incoming none := by
  unfold onMessage
  simp only
  generalize replace "@c.us".toList [] message.sender = phoneNumber
  cases hp : startsWith message.body P
  · simp only [Bool.false_eq_true, if_false]
    refine ⟨[.new_message phoneNumber message.body .incoming none], rfl, ?_⟩
    intro e he
    exact Or.inr (List.mem_singleton.mp he)
  · simp only [if_true]
    have he := handleCommand_emitted w message (commandOf rt P message.body)
      (argsOf P message.body) phoneNumber
    cases ht : (handleCommand w message (commandOf rt P message.body)
        (argsOf P message.body) phoneNumber).threw
    · rw [ht] at he
      simp only [Bool.false_eq_true, if_false] at he ⊢
      refine ⟨[.command_executed (commandOf rt P message.body) phoneNumber,
        .new_message phoneNumber message.body .incoming none], ?_, ?_⟩
      · show (handleCommand _ _ _ _ _).world.emitted ++ _ = _
        rw [he, List.append_assoc]
        rfl
      · intro e hm
        rcases List.mem_cons.mp hm with h | h
        · exact Or.inl h
        · exact Or.inr (List.mem_singleton.mp h)
    · rw [ht] at he
      simp only [if_true] at he ⊢
      refine ⟨[], ?_, ?_⟩
      · rw [he, List.append_nil]
      · intro e hm
        cases hm

theorem replace_suffix_c_us (n : Str) (hn : ¬ "@c.us".toList <:+: n) :
    replace "@c.us".toList [] (n ++ "@c.us".toList) = n := by
  have h := replace_append_pattern '@' "c.us".toList [] (by decide) n hn
  rw [List.append_nil] at h
  exact h

/-- C12, as the code has it. The identifier that the `new_message` and `command_executed`
events of an inbound message carry is the sender `s` with its first `@c.us` removed.
When `s` is `n` followed by `@c.us` and `n` holds no `@c.us`, it is `n`; when `s` holds no
`@c.us`, it is `s`; in both cases it does not end with `@c.us` and is a prefix of `s`. -/
theorem exposed_identifier (rt : Runtime) (P : Str) (w : World) (message : Message) :
    (∃ added, (onMessage rt P w message).world.emitted = w.emitted ++ added ∧
      ∀ e ∈ added,
        e = .command_executed (commandOf rt P message.body)
              (replace "@c.us".toList [] message.sender) ∨
        e = .new_message (replace "@c.us".toList [] message.sender) message.body
              .incoming none) ∧
    (∀ n, message.sender = n ++ "@c.us".toList → ¬ "@c.us".toList <:+: n →
      replace "@c.us".toList [] message.sender = n) ∧
    (¬ "@c.us".toList <:+: message.sender →
      replace "@c.us".toList [] message.sender = message.sender) ∧
    ((¬ "@c.us".toList <:+: message.sender ∨
        ∃ n, message.sender = n ++ "@c.us".toList ∧ ¬ "@c.us".toList <:+: n) →
      ¬ "@c.us".toList <:+ replace "@c.us".toList [] message.sender ∧
      replace "@c.us".toList [] message.sender <+: message.sender) := by
  refine ⟨onMessage_emitted rt P w message, ?_, ?_, ?_⟩
  · intro n hs hn
    rw [hs]
    exact replace_suffix_c_us n hn
  · intro hs
    exact replace_pattern_absent _ _ _ hs
  · rintro (hs | ⟨n, hs, hn⟩)
    · rw [replace_pattern_absent _ _ _ hs]
      exact ⟨fun h => hs h.isInfix, List.prefix_refl _⟩
    · rw [hs, replace_suffix_c_us n hn]
      exact ⟨fun h => hn h.isInfix, List.prefix_append _ _⟩

/-- C12 fails as stated: only the first `@c.us` is removed, wherever it stands.  The
exposed identifier of `x@c.us@c.us` ends with `@c.us`, that of `a@c.usb` is `ab`, no
prefix of the sender, and that of `@c.usx` followed by `@c.us` is `x@c.us`. -/
theorem first_c_us_removed_anywhere :
    (onMessage Runtime.sample "!".toList World.initial
      { sender := "x@c.us@c.us".toList, body := "hi".toList,
        replyOk := fun _ => true, contact := none }).world.emitted
      = [.new_message "x@c.us".toList "hi".toList .incoming none] ∧
    "@c.us".toList <:+ replace "@c.us".toList [] "x@c.us@c.us".toList ∧
    (onMessage Runtime.sample "!".toList World.initial
      { sender := "a@c.usb".toList, body := "hi".toList,
        replyOk := fun _ => true, contact := none }).world.emitted
      = [.new_message "ab".toList "hi".toList .incoming none] ∧
    ¬ replace "@c.us".toList [] "a@c.usb".toList <+: "a@c.usb".toList ∧
    replace "@c.us".toList [] ("@c.usx".toList ++ "@c.us".toList) = "x@c.us".toList ∧
    replace "@c.us".toList [] ("@c.usx".toList ++ "@c.us".toList) ≠ "@c.usx".toList := by
  decide

end WaBot
